import Mathlib

/-!
Verification development for the audio-transcription-processor repository.

The Python sources are shallowly embedded in Lean:

* Python floats are modelled as exact rationals; the format string
  `"%06.3f"` is modelled by correct rounding (round half to even) of the
  exact value, which is what CPython performs on the exact binary value.
* Python strings are Lean strings; `str.split(sep)` for a one-character
  separator is modelled by `pySplitChar`, `int(s)` by `pyInt`, and
  `float("0." + s)` by `pyFracDigits`.
* Raised exceptions are modelled with `Except PyErr` / `Option`.

The embedded functions keep their source names (`seconds_to_hms`,
`hms_to_seconds`, `validate_time_format`, `trim_audio`, `run_diarization`,
`process_audio`, `process_videos`, `write_transcriptions`).
-/

/-- Characters of decimal digits, by value. -/
def digitChar : Nat → Char
  | 0 => '0'
  | 1 => '1'
  | 2 => '2'
  | 3 => '3'
  | 4 => '4'
  | 5 => '5'
  | 6 => '6'
  | 7 => '7'
  | 8 => '8'
  | _ => '9'

/-- Recogniser for an ASCII decimal digit. -/
def isDig (c : Char) : Bool :=
  decide (48 ≤ c.toNat) && decide (c.toNat ≤ 57)

/-- Numeric value of an ASCII digit character. -/
def dval (c : Char) : Nat := c.toNat - 48

/-- All characters of the list are ASCII digits. -/
def allDigits (cs : List Char) : Bool := cs.all isDig

/-- Value of a digit string read left to right in base 10. -/
def digsVal (cs : List Char) : Nat :=
  cs.foldl (fun a c => 10 * a + dval c) 0

/-- Decimal digits of a natural number, most significant first, with fuel. -/
def natDigitsAux : Nat → Nat → List Char
  | 0, _ => []
  | fuel + 1, n =>
    if n < 10 then [digitChar n]
    else natDigitsAux fuel (n / 10) ++ [digitChar (n % 10)]

/-- Decimal digits of a natural number, most significant first. -/
def natDigits (n : Nat) : List Char := natDigitsAux (n + 1) n

/-- Left-pad a character list with zeros to the given width, as Python
zero-padding does for non-negative numbers. -/
def zfill (w : Nat) (cs : List Char) : List Char :=
  List.replicate (w - cs.length) '0' ++ cs

/-- Zero-padded rendering of an integer to a minimal width, following the
Python format `"%0wd"` (the sign occupies one column of the width). -/
def intZfill (w : Nat) (i : Int) : List Char :=
  if i < 0 then '-' :: zfill (w - 1) (natDigits i.natAbs)
  else zfill w (natDigits i.toNat)

/-- Model of Python `str.split(sep)` for a single-character separator. -/
def pySplitChar (sep : Char) : List Char → List (List Char)
  | [] => [[]]
  | c :: cs =>
    if c = sep then [] :: pySplitChar sep cs
    else
      match pySplitChar sep cs with
      | [] => [[c]]
      | g :: gs => (c :: g) :: gs

/-- A nonempty run of ASCII digits and its value: the digit-run part of
Python `int` parsing; anything else raises `ValueError`, modelled as
`none`. -/
def parseDigs (cs : List Char) : Option Nat :=
  if cs.isEmpty then none
  else if allDigits cs then some (digsVal cs) else none

/-- Surrounding whitespace tolerated by Python `int`. -/
def pyStrip (cs : List Char) : List Char :=
  ((cs.dropWhile Char.isWhitespace).reverse.dropWhile Char.isWhitespace).reverse

/-- Signed integer parsing, the model of Python `int`: optional
surrounding whitespace, an optional sign, then a nonempty digit run
(PEP 515 underscore separators and non-ASCII digits are not modelled;
no input in this program contains them). -/
def pyInt (cs : List Char) : Option Int :=
  match pyStrip cs with
  | [] => none
  | c :: rest =>
    if c = '-' then (parseDigs rest).map (fun n => -(Int.ofNat n))
    else if c = '+' then (parseDigs rest).map (fun n => Int.ofNat n)
    else (parseDigs (c :: rest)).map (fun n => Int.ofNat n)

/-- Model of Python `float("0." + s)`: the digit run `s` (possibly empty)
read as a decimal fraction; exponent suffixes accepted by CPython are not
modelled, no input of this program carries one. -/
def pyFracDigits (cs : List Char) : Option ℚ :=
  if allDigits cs then some ((digsVal cs : ℚ) / 10 ^ cs.length) else none

/-- Round a rational to the nearest integer, ties to the even integer;
this is how CPython renders a binary float with `"%.3f"` (applied to the
exact value, scaled by 1000). -/
def rhe (q : ℚ) : Int :=
  if q - ⌊q⌋ < 1 / 2 then ⌊q⌋
  else if 1 / 2 < q - ⌊q⌋ then ⌊q⌋ + 1
  else if ⌊q⌋ % 2 = 0 then ⌊q⌋ else ⌊q⌋ + 1

/-- Rounded value as a natural number (the inputs in this program are
always non-negative). -/
def rheN (q : ℚ) : Nat := (rhe q).toNat

/-- Model of the Python format `f"{q:06.3f}"` for a non-negative value:
three fractional digits, correctly rounded, zero-padded to width six. -/
def fmt063 (q : ℚ) : List Char :=
  let n := rheN (q * 1000)
  zfill 6 (natDigits (n / 1000) ++ '.' :: zfill 3 (natDigits (n % 1000)))

/-- Python `int(seconds // 3600)` from `seconds_to_hms` in src/main.py. -/
def pyHours (s : ℚ) : Int := ⌊s / 3600⌋

/-- Python `int((seconds % 3600) // 60)` from `seconds_to_hms`. -/
def pyMinutes (s : ℚ) : Int := ⌊(s - 3600 * pyHours s) / 60⌋

/-- Python `seconds - (hours * 3600 + minutes * 60)` from `seconds_to_hms`. -/
def pySecs (s : ℚ) : ℚ := s - (3600 * pyHours s + 60 * pyMinutes s)

/-- Embedding of `seconds_to_hms` (src/main.py lines 25-30): convert
seconds to the display string `HH:MM:SS.mmm` via
`f"{hours:02d}:{minutes:02d}:{secs:06.3f}"`. -/
def seconds_to_hms (s : ℚ) : String :=
  ⟨intZfill 2 (pyHours s) ++ ':' :: intZfill 2 (pyMinutes s) ++ ':' :: fmt063 (pySecs s)⟩

/-- Inner part of `hms_to_seconds`: split the time part on colons and
combine with the already-parsed fractional seconds, exactly as the
`len(parts)` cascade in src/main.py lines 40-49 does. -/
def hmsCore (timePart : List Char) (ms : ℚ) : Option ℚ :=
  match pySplitChar ':' timePart with
  | [h, m, s] => do
    let hv ← pyInt h
    let mv ← pyInt m
    let sv ← pyInt s
    pure ((hv : ℚ) * 3600 + (mv : ℚ) * 60 + (sv : ℚ) + ms)
  | [m, s] => do
    let mv ← pyInt m
    let sv ← pyInt s
    pure ((mv : ℚ) * 60 + (sv : ℚ) + ms)
  | parts => do
    let sv ← pyInt (parts.headD [])
    pure ((sv : ℚ) + ms)

/-- Embedding of `hms_to_seconds` (src/main.py lines 32-49). A raised
`ValueError` (malformed component, or a dot count other than one when a
dot is present) is modelled as `none`. -/
def hms_to_seconds (hms : String) : Option ℚ :=
  if '.' ∈ hms.data then
    match pySplitChar '.' hms.data with
    | [timePart, msPart] => do
      let msv ← pyFracDigits msPart
      hmsCore timePart msv
    | _ => none
  else hmsCore hms.data 0

example : hms_to_seconds "" = none := by decide
example : hms_to_seconds "ab:cd" = none := by decide

example : hms_to_seconds "1:2:3:4" = some 1 := by
  have h : hms_to_seconds "1:2:3:4" = some ((((1 : ℕ) : ℤ) : ℚ) + 0) := rfl
  rw [h]; norm_num

example : hms_to_seconds "00:00:30" = some 30 := by
  have h : hms_to_seconds "00:00:30" =
      some ((((0 : ℕ) : ℤ) : ℚ) * 3600 + (((0 : ℕ) : ℤ) : ℚ) * 60 + (((30 : ℕ) : ℤ) : ℚ) + 0) := rfl
  rw [h]; norm_num

example : hms_to_seconds "45" = some 45 := by
  have h : hms_to_seconds "45" = some ((((45 : ℕ) : ℤ) : ℚ) + 0) := rfl
  rw [h]; norm_num

example : seconds_to_hms (7/16) = "00:00:00.438" := by
  have h1 : pyHours (7/16 : ℚ) = 0 := by
    rw [pyHours]; norm_num [Int.floor_eq_zero_iff]
  have h2 : pyMinutes (7/16 : ℚ) = 0 := by
    rw [pyMinutes, h1]; norm_num [Int.floor_eq_zero_iff]
  have h3 : pySecs (7/16 : ℚ) = 7/16 := by
    rw [pySecs, h1, h2]; norm_num
  have h4 : rheN ((7/16 : ℚ) * 1000) = 438 := by
    have hf : ⌊(7/16 : ℚ) * 1000⌋ = 437 := by norm_num [Int.floor_eq_iff]
    rw [rheN, rhe, hf]; norm_num; decide
  rw [seconds_to_hms, h1, h2, fmt063, h3, h4]
  decide

/-! ### Lemmas about digit strings -/

theorem isDig_digitChar {d : Nat} (h : d < 10) : isDig (digitChar d) = true := by
  interval_cases d <;> decide

theorem dval_digitChar {d : Nat} (h : d < 10) : dval (digitChar d) = d := by
  interval_cases d <;> decide

theorem mem_digits_isDig {cs : List Char} {c : Char}
    (hall : allDigits cs = true) (hc : c ∈ cs) : isDig c = true :=
  List.all_eq_true.mp hall c hc

theorem not_mem_of_allDigits {cs : List Char} {c : Char}
    (hall : allDigits cs = true) (hc : isDig c = false) : c ∉ cs := by
  intro hmem
  have h := mem_digits_isDig hall hmem
  rw [h] at hc
  exact absurd hc (by decide)

theorem allDigits_append (xs ys : List Char) :
    allDigits (xs ++ ys) = (allDigits xs && allDigits ys) := by
  simp [allDigits, List.all_append]

theorem digsVal_append_singleton (xs : List Char) (c : Char) :
    digsVal (xs ++ [c]) = 10 * digsVal xs + dval c := by
  simp [digsVal, List.foldl_append]

theorem digsVal_replicate_zero (k : Nat) (cs : List Char) :
    digsVal (List.replicate k '0' ++ cs) = digsVal cs := by
  induction k with
  | zero => rfl
  | succ n ih =>
    have h0 : (fun (a : Nat) (c : Char) => 10 * a + dval c) 0 '0' = 0 := by decide
    simpa [digsVal, List.replicate_succ, h0] using ih

theorem allDigits_replicate_zero (k : Nat) :
    allDigits (List.replicate k '0') = true := by
  rw [allDigits, List.all_eq_true]
  intro x hx
  rw [List.eq_of_mem_replicate hx]
  decide

theorem allDigits_natDigitsAux (fuel : Nat) : ∀ n, allDigits (natDigitsAux fuel n) = true := by
  induction fuel with
  | zero => intro n; rfl
  | succ f ih =>
    intro n
    simp only [natDigitsAux]
    by_cases h : n < 10
    · simp only [if_pos h]
      simp [allDigits, isDig_digitChar h]
    · have h10 : n % 10 < 10 := Nat.mod_lt _ (by norm_num)
      simp only [if_neg h, allDigits_append, ih (n / 10), Bool.true_and]
      simp [allDigits, isDig_digitChar h10]

theorem allDigits_natDigits (n : Nat) : allDigits (natDigits n) = true :=
  allDigits_natDigitsAux (n + 1) n

theorem digsVal_natDigitsAux (fuel : Nat) :
    ∀ n, n < 10 ^ fuel → digsVal (natDigitsAux fuel n) = n := by
  induction fuel with
  | zero =>
    intro n hn
    interval_cases n
    rfl
  | succ f ih =>
    intro n hn
    simp only [natDigitsAux]
    by_cases h : n < 10
    · simp only [if_pos h]
      show 10 * 0 + dval (digitChar n) = n
      rw [dval_digitChar h]
      omega
    · have hd : n / 10 < 10 ^ f := by
        rw [Nat.div_lt_iff_lt_mul (by norm_num : (0:Nat) < 10)]
        calc n < 10 ^ (f + 1) := hn
        _ = 10 ^ f * 10 := by rw [pow_succ]
      have h10 : n % 10 < 10 := Nat.mod_lt _ (by norm_num)
      rw [if_neg h, digsVal_append_singleton, ih (n / 10) hd, dval_digitChar h10]
      omega

theorem digsVal_natDigits (n : Nat) : digsVal (natDigits n) = n := by
  have h : n < 10 ^ (n + 1) := by
    calc n < 10 ^ n := Nat.lt_pow_self (by norm_num) n
    _ ≤ 10 ^ (n + 1) := Nat.pow_le_pow_right (by norm_num) (Nat.le_succ n)
  exact digsVal_natDigitsAux (n + 1) n h

theorem length_natDigitsAux_le (fuel : Nat) :
    ∀ n j, 0 < j → n < 10 ^ j → (natDigitsAux fuel n).length ≤ j := by
  induction fuel with
  | zero => intro n j hj _; simp [natDigitsAux]
  | succ f ih =>
    intro n j hj hn
    simp only [natDigitsAux]
    by_cases h : n < 10
    · simp only [if_pos h, List.length_singleton]
      omega
    · have hj2 : 2 ≤ j := by
        by_contra hcon
        have : j = 1 := by omega
        subst this
        simp at hn
        omega
      have hd : n / 10 < 10 ^ (j - 1) := by
        rw [Nat.div_lt_iff_lt_mul (by norm_num : (0:Nat) < 10)]
        have : 10 ^ (j - 1) * 10 = 10 ^ j := by
          rw [← pow_succ]
          congr 1
          omega
        omega
      have := ih (n / 10) (j - 1) (by omega) hd
      rw [if_neg h]
      simp only [List.length_append, List.length_singleton]
      omega

theorem length_natDigits_le {n j : Nat} (hj : 0 < j) (hn : n < 10 ^ j) :
    (natDigits n).length ≤ j :=
  length_natDigitsAux_le (n + 1) n j hj hn

theorem natDigits_ne_nil (n : Nat) : natDigits n ≠ [] := by
  rw [natDigits]
  simp only [natDigitsAux]
  by_cases h : n < 10
  · simp [if_pos h]
  · simp [if_neg h]

theorem allDigits_zfill {cs : List Char} (w : Nat) (h : allDigits cs = true) :
    allDigits (zfill w cs) = true := by
  rw [zfill, allDigits_append, allDigits_replicate_zero, h]
  rfl

theorem digsVal_zfill (w : Nat) (cs : List Char) : digsVal (zfill w cs) = digsVal cs :=
  digsVal_replicate_zero _ _

theorem length_zfill (w : Nat) (cs : List Char) :
    (zfill w cs).length = max w cs.length := by
  simp only [zfill, List.length_append, List.length_replicate]
  omega

theorem zfill_ne_nil {cs : List Char} (w : Nat) (h : cs ≠ []) : zfill w cs ≠ [] := by
  intro hcon
  rcases List.append_eq_nil.mp hcon with ⟨_, h2⟩
  exact h h2

/-! ### Lemmas about parsing -/

theorem parseDigs_of_digits {cs : List Char} (hne : cs ≠ [])
    (hall : allDigits cs = true) : parseDigs cs = some (digsVal cs) := by
  rw [parseDigs, if_neg (by simpa [List.isEmpty_iff] using hne), if_pos hall]

theorem isDig_not_whitespace {c : Char} (h : isDig c = true) : c.isWhitespace = false := by
  have h1 : 48 ≤ c.toNat := of_decide_eq_true ((Bool.and_eq_true _ _).mp h).1
  have h2 : c.toNat ≤ 57 := of_decide_eq_true ((Bool.and_eq_true _ _).mp h).2
  have hs : ¬ c = ' ' := by
    intro he
    rw [he] at h1
    exact absurd h1 (by decide)
  have ht : ¬ c = '\t' := by
    intro he
    rw [he] at h1
    exact absurd h1 (by decide)
  have hr : ¬ c = '\r' := by
    intro he
    rw [he] at h1
    exact absurd h1 (by decide)
  have hn : ¬ c = '\n' := by
    intro he
    rw [he] at h1
    exact absurd h1 (by decide)
  rw [Char.isWhitespace]
  simp [hs, ht, hr, hn]

theorem dropWhile_whitespace_of_digits {cs : List Char} (hall : allDigits cs = true) :
    cs.dropWhile Char.isWhitespace = cs := by
  cases cs with
  | nil => rfl
  | cons c rest =>
    rw [List.dropWhile_cons, if_neg]
    rw [isDig_not_whitespace (mem_digits_isDig hall (List.mem_cons_self _ _))]
    simp

theorem pyStrip_digits {cs : List Char} (hall : allDigits cs = true) :
    pyStrip cs = cs := by
  rw [pyStrip, dropWhile_whitespace_of_digits hall]
  have hallrev : allDigits cs.reverse = true := by
    rw [allDigits, List.all_eq_true]
    intro x hx
    exact mem_digits_isDig hall (List.mem_reverse.mp hx)
  rw [dropWhile_whitespace_of_digits hallrev, List.reverse_reverse]

theorem pyInt_digits {cs : List Char} (hne : cs ≠ [])
    (hall : allDigits cs = true) : pyInt cs = some (digsVal cs : Int) := by
  cases cs with
  | nil => exact absurd rfl hne
  | cons c rest =>
    have hd : isDig c = true := mem_digits_isDig hall (List.mem_cons_self _ _)
    have hcm : ¬ c = '-' := by
      intro he
      rw [he] at hd
      exact absurd hd (by decide)
    have hcp : ¬ c = '+' := by
      intro he
      rw [he] at hd
      exact absurd hd (by decide)
    unfold pyInt
    rw [pyStrip_digits hall]
    simp only []
    rw [if_neg hcm, if_neg hcp, parseDigs_of_digits hne hall]
    rfl

theorem pyFracDigits_of_digits {cs : List Char} (hall : allDigits cs = true) :
    pyFracDigits cs = some ((digsVal cs : ℚ) / 10 ^ cs.length) := by
  rw [pyFracDigits, if_pos hall]

/-! ### Lemmas about the split model -/

theorem pySplitChar_noSep {sep : Char} : ∀ {cs : List Char}, sep ∉ cs →
    pySplitChar sep cs = [cs] := by
  intro cs
  induction cs with
  | nil => intro _; rfl
  | cons c cs ih =>
    intro h
    have hc : ¬ c = sep := by
      intro he
      exact h (he ▸ List.mem_cons_self _ _)
    have hcs : sep ∉ cs := fun hm => h (List.mem_cons_of_mem _ hm)
    rw [pySplitChar, if_neg hc, ih hcs]

theorem pySplitChar_append {sep : Char} : ∀ {xs : List Char}, sep ∉ xs → ∀ ys,
    pySplitChar sep (xs ++ sep :: ys) = xs :: pySplitChar sep ys := by
  intro xs
  induction xs with
  | nil =>
    intro _ ys
    rw [List.nil_append, pySplitChar, if_pos rfl]
  | cons c xs ih =>
    intro h ys
    have hc : ¬ c = sep := by
      intro he
      exact h (he ▸ List.mem_cons_self _ _)
    have hxs : sep ∉ xs := fun hm => h (List.mem_cons_of_mem _ hm)
    rw [List.cons_append, pySplitChar, if_neg hc, ih hxs ys]

theorem pySplitChar_length_one {sep : Char} {cs : List Char} (h : sep ∉ cs) :
    (pySplitChar sep cs).length = 1 := by
  rw [pySplitChar_noSep h]
  rfl

/-! ### Lemmas about rounding and the field arithmetic of seconds_to_hms -/

theorem abs_rhe_sub (q : ℚ) : |(rhe q : ℚ) - q| ≤ 1 / 2 := by
  have h1 : (⌊q⌋ : ℚ) ≤ q := Int.floor_le q
  have h2 : q < ⌊q⌋ + 1 := Int.lt_floor_add_one q
  rw [rhe]
  split_ifs with ha hb hc <;>
    (rw [abs_le]; constructor <;> push_cast <;> linarith)

theorem rhe_nonneg {q : ℚ} (h : 0 ≤ q) : 0 ≤ rhe q := by
  have hf : 0 ≤ ⌊q⌋ := Int.floor_nonneg.mpr h
  rw [rhe]
  split_ifs <;> omega

theorem rhe_le_floor_add_one (q : ℚ) : rhe q ≤ ⌊q⌋ + 1 := by
  rw [rhe]
  split_ifs <;> omega

theorem rheN_cast {q : ℚ} (h : 0 ≤ q) : ((rheN q : ℕ) : ℤ) = rhe q := by
  rw [rheN, Int.toNat_of_nonneg (rhe_nonneg h)]

theorem rheN_castQ {q : ℚ} (h : 0 ≤ q) : ((rheN q : ℕ) : ℚ) = (rhe q : ℚ) := by
  have hz := rheN_cast h
  exact_mod_cast congrArg (fun z : ℤ => (z : ℚ)) hz

theorem pyHours_nonneg {s : ℚ} (h : 0 ≤ s) : 0 ≤ pyHours s :=
  Int.floor_nonneg.mpr (by positivity)

theorem sub_hours_nonneg (s : ℚ) : 0 ≤ s - 3600 * pyHours s := by
  have h1 : ((pyHours s : ℤ) : ℚ) ≤ s / 3600 := Int.floor_le (s / 3600)
  have h2 : (3600 : ℚ) * ((pyHours s : ℤ) : ℚ) ≤ 3600 * (s / 3600) := by linarith
  have h3 : (3600 : ℚ) * (s / 3600) = s := by ring
  linarith

theorem sub_hours_lt (s : ℚ) : s - 3600 * pyHours s < 3600 := by
  have h1 : s / 3600 < ((pyHours s : ℤ) : ℚ) + 1 := Int.lt_floor_add_one (s / 3600)
  have h2 : (3600 : ℚ) * (s / 3600) < 3600 * (((pyHours s : ℤ) : ℚ) + 1) := by linarith
  have h3 : (3600 : ℚ) * (s / 3600) = s := by ring
  linarith

theorem pyMinutes_nonneg (s : ℚ) : 0 ≤ pyMinutes s :=
  Int.floor_nonneg.mpr (div_nonneg (sub_hours_nonneg s) (by norm_num))

theorem pyMinutes_lt (s : ℚ) : pyMinutes s < 60 := by
  rw [pyMinutes, Int.floor_lt]
  rw [div_lt_iff₀ (by norm_num : (0:ℚ) < 60)]
  have := sub_hours_lt s
  push_cast
  linarith

theorem pySecs_nonneg (s : ℚ) : 0 ≤ pySecs s := by
  have h1 : ((pyMinutes s : ℤ) : ℚ) ≤ (s - 3600 * pyHours s) / 60 :=
    Int.floor_le ((s - 3600 * pyHours s) / 60)
  have h2 : (60 : ℚ) * ((pyMinutes s : ℤ) : ℚ) ≤ 60 * ((s - 3600 * pyHours s) / 60) := by
    linarith
  have h3 : (60 : ℚ) * ((s - 3600 * pyHours s) / 60) = s - 3600 * pyHours s := by ring
  rw [pySecs]
  linarith

theorem pySecs_lt (s : ℚ) : pySecs s < 60 := by
  have h1 : (s - 3600 * pyHours s) / 60 < ((pyMinutes s : ℤ) : ℚ) + 1 :=
    Int.lt_floor_add_one ((s - 3600 * pyHours s) / 60)
  have h2 : (60 : ℚ) * ((s - 3600 * pyHours s) / 60) <
      60 * (((pyMinutes s : ℤ) : ℚ) + 1) := by linarith
  have h3 : (60 : ℚ) * ((s - 3600 * pyHours s) / 60) = s - 3600 * pyHours s := by ring
  rw [pySecs]
  linarith

/-- The scaled, rounded within-minute seconds of a timestamp; the
`SS.mmm` field of the rendered string displays this value over 1000. -/
def msecN (s : ℚ) : Nat := rheN (pySecs s * 1000)

theorem msecN_le (s : ℚ) : msecN s ≤ 60000 := by
  have h1 : pySecs s * 1000 < 60000 := by
    have := pySecs_lt s
    linarith
  have h2 : ⌊pySecs s * 1000⌋ < 60000 := Int.floor_lt.mpr (by push_cast; linarith)
  have h3 : rhe (pySecs s * 1000) ≤ 60000 := by
    have := rhe_le_floor_add_one (pySecs s * 1000)
    omega
  rw [msecN, rheN]
  omega

/-- Hours field of the rendered timecode string. -/
def hmsA (s : ℚ) : List Char := zfill 2 (natDigits (pyHours s).toNat)

/-- Minutes field of the rendered timecode string. -/
def hmsB (s : ℚ) : List Char := zfill 2 (natDigits (pyMinutes s).toNat)

/-- Integral-seconds field of the rendered timecode string. -/
def hmsC (s : ℚ) : List Char := zfill 2 (natDigits (msecN s / 1000))

/-- Milliseconds field of the rendered timecode string. -/
def hmsD (s : ℚ) : List Char := zfill 3 (natDigits (msecN s % 1000))

theorem length_hmsD (s : ℚ) : (hmsD s).length = 3 := by
  have hlt : msecN s % 1000 < 10 ^ 3 := by
    have := Nat.mod_lt (msecN s) (show 0 < 1000 by norm_num)
    norm_num
    omega
  have hle := length_natDigits_le (show 0 < 3 by norm_num) hlt
  rw [hmsD, length_zfill]
  omega

theorem length_hmsC (s : ℚ) : (hmsC s).length = 2 := by
  have hlt : msecN s / 1000 < 10 ^ 2 := by
    have := msecN_le s
    have : msecN s / 1000 ≤ 60 := by omega
    norm_num
    omega
  have hle := length_natDigits_le (show 0 < 2 by norm_num) hlt
  rw [hmsC, length_zfill]
  omega

theorem length_hmsB (s : ℚ) : (hmsB s).length = 2 := by
  have hm := pyMinutes_lt s
  have hm0 := pyMinutes_nonneg s
  have hlt : (pyMinutes s).toNat < 10 ^ 2 := by
    norm_num
    omega
  have hle := length_natDigits_le (show 0 < 2 by norm_num) hlt
  rw [hmsB, length_zfill]
  omega

theorem length_hmsA (s : ℚ) : 2 ≤ (hmsA s).length := by
  rw [hmsA, length_zfill]
  omega

theorem fmt063_decomp (s : ℚ) :
    fmt063 (pySecs s) = hmsC s ++ '.' :: hmsD s := by
  have hip : (natDigits (msecN s / 1000)).length ≤ 2 := by
    have hlt : msecN s / 1000 < 10 ^ 2 := by
      have := msecN_le s
      have : msecN s / 1000 ≤ 60 := by omega
      norm_num
      omega
    exact length_natDigits_le (by norm_num) hlt
  rw [fmt063, hmsC, hmsD]
  show zfill 6 (natDigits (msecN s / 1000) ++ '.' :: zfill 3 (natDigits (msecN s % 1000))) =
    zfill 2 (natDigits (msecN s / 1000)) ++ '.' :: zfill 3 (natDigits (msecN s % 1000))
  generalize hD : zfill 3 (natDigits (msecN s % 1000)) = D
  have hDlen : D.length = 3 := by
    rw [← hD]
    exact length_hmsD s
  rw [zfill, List.length_append, List.length_cons, hDlen]
  have harith : 6 - ((natDigits (msecN s / 1000)).length + (3 + 1)) =
      2 - (natDigits (msecN s / 1000)).length := by omega
  rw [harith, zfill, List.append_assoc]

theorem seconds_to_hms_data {s : ℚ} (hs : 0 ≤ s) :
    (seconds_to_hms s).data = hmsA s ++ ':' :: hmsB s ++ ':' :: (hmsC s ++ '.' :: hmsD s) := by
  have hA : intZfill 2 (pyHours s) = hmsA s := by
    rw [intZfill, if_neg (by exact not_lt.mpr (pyHours_nonneg hs)), hmsA]
  have hB : intZfill 2 (pyMinutes s) = hmsB s := by
    rw [intZfill, if_neg (by exact not_lt.mpr (pyMinutes_nonneg s)), hmsB]
  show intZfill 2 (pyHours s) ++ ':' :: intZfill 2 (pyMinutes s) ++ ':' :: fmt063 (pySecs s) =
    hmsA s ++ ':' :: hmsB s ++ ':' :: (hmsC s ++ '.' :: hmsD s)
  rw [hA, hB, fmt063_decomp]

theorem allDigits_hmsA (s : ℚ) : allDigits (hmsA s) = true :=
  allDigits_zfill _ (allDigits_natDigits _)

theorem allDigits_hmsB (s : ℚ) : allDigits (hmsB s) = true :=
  allDigits_zfill _ (allDigits_natDigits _)

theorem allDigits_hmsC (s : ℚ) : allDigits (hmsC s) = true :=
  allDigits_zfill _ (allDigits_natDigits _)

theorem allDigits_hmsD (s : ℚ) : allDigits (hmsD s) = true :=
  allDigits_zfill _ (allDigits_natDigits _)

theorem digsVal_hmsA {s : ℚ} (hs : 0 ≤ s) : (digsVal (hmsA s) : Int) = pyHours s := by
  rw [hmsA, digsVal_zfill, digsVal_natDigits]
  exact Int.toNat_of_nonneg (pyHours_nonneg hs)

theorem digsVal_hmsB (s : ℚ) : (digsVal (hmsB s) : Int) = pyMinutes s := by
  rw [hmsB, digsVal_zfill, digsVal_natDigits]
  exact Int.toNat_of_nonneg (pyMinutes_nonneg s)

theorem digsVal_hmsC (s : ℚ) : digsVal (hmsC s) = msecN s / 1000 := by
  rw [hmsC, digsVal_zfill, digsVal_natDigits]

theorem digsVal_hmsD (s : ℚ) : digsVal (hmsD s) = msecN s % 1000 := by
  rw [hmsD, digsVal_zfill, digsVal_natDigits]

theorem hmsA_ne_nil (s : ℚ) : hmsA s ≠ [] := zfill_ne_nil _ (natDigits_ne_nil _)

theorem hmsB_ne_nil (s : ℚ) : hmsB s ≠ [] := zfill_ne_nil _ (natDigits_ne_nil _)

theorem hmsC_ne_nil (s : ℚ) : hmsC s ≠ [] := zfill_ne_nil _ (natDigits_ne_nil _)

theorem hmsCore_three {A B C : List Char} (hA : (':') ∉ A) (hB : (':') ∉ B)
    (hC : (':') ∉ C) (ms : ℚ) :
    hmsCore (A ++ ':' :: B ++ ':' :: C) ms =
      (do
        let hv ← pyInt A
        let mv ← pyInt B
        let sv ← pyInt C
        pure ((hv : ℚ) * 3600 + (mv : ℚ) * 60 + (sv : ℚ) + ms)) := by
  have hassoc : A ++ ':' :: B ++ ':' :: C = A ++ ':' :: (B ++ ':' :: C) := by
    simp [List.append_assoc]
  unfold hmsCore
  rw [hassoc, pySplitChar_append hA, pySplitChar_append hB, pySplitChar_noSep hC]

theorem hms_parse {s : ℚ} (hs : 0 ≤ s) :
    hms_to_seconds (seconds_to_hms s) =
      some (((digsVal (hmsA s) : Int) : ℚ) * 3600 + ((digsVal (hmsB s) : Int) : ℚ) * 60 +
        ((digsVal (hmsC s) : Int) : ℚ) + (digsVal (hmsD s) : ℚ) / 10 ^ (hmsD s).length) := by
  have hallA := allDigits_hmsA s
  have hallB := allDigits_hmsB s
  have hallC := allDigits_hmsC s
  have hallD := allDigits_hmsD s
  have hdotA : ('.') ∉ hmsA s := not_mem_of_allDigits hallA (by decide)
  have hdotB : ('.') ∉ hmsB s := not_mem_of_allDigits hallB (by decide)
  have hdotC : ('.') ∉ hmsC s := not_mem_of_allDigits hallC (by decide)
  have hdotD : ('.') ∉ hmsD s := not_mem_of_allDigits hallD (by decide)
  have hcolA : (':') ∉ hmsA s := not_mem_of_allDigits hallA (by decide)
  have hcolB : (':') ∉ hmsB s := not_mem_of_allDigits hallB (by decide)
  have hcolC : (':') ∉ hmsC s := not_mem_of_allDigits hallC (by decide)
  have hdata := seconds_to_hms_data hs
  have hassoc : hmsA s ++ ':' :: hmsB s ++ ':' :: (hmsC s ++ '.' :: hmsD s) =
      (hmsA s ++ ':' :: hmsB s ++ ':' :: hmsC s) ++ '.' :: hmsD s := by
    simp [List.append_assoc]
  have hdotX : ('.') ∉ (hmsA s ++ ':' :: hmsB s ++ ':' :: hmsC s) := by
    intro hmem
    rcases List.mem_append.mp hmem with h | h
    · rcases List.mem_append.mp h with h | h
      · exact hdotA h
      · rcases List.mem_cons.mp h with h | h
        · exact absurd h (by decide)
        · exact hdotB h
    · rcases List.mem_cons.mp h with h | h
      · exact absurd h (by decide)
      · exact hdotC h
  have hmem : ('.') ∈ (seconds_to_hms s).data := by
    rw [hdata, hassoc]
    exact List.mem_append.mpr (Or.inr (List.mem_cons_self _ _))
  rw [hms_to_seconds, if_pos hmem, hdata, hassoc, pySplitChar_append hdotX,
    pySplitChar_noSep hdotD]
  show (do
      let msv ← pyFracDigits (hmsD s)
      hmsCore (hmsA s ++ ':' :: hmsB s ++ ':' :: hmsC s) msv) = _
  rw [pyFracDigits_of_digits hallD]
  show hmsCore (hmsA s ++ ':' :: hmsB s ++ ':' :: hmsC s)
      ((digsVal (hmsD s) : ℚ) / 10 ^ (hmsD s).length) = _
  rw [hmsCore_three hcolA hcolB hcolC, pyInt_digits (hmsA_ne_nil s) hallA,
    pyInt_digits (hmsB_ne_nil s) hallB, pyInt_digits (hmsC_ne_nil s) hallC]
  rfl

/-- C7 supporting identity: the seconds value recovered from the rendered
string is the whole-hours and whole-minutes value plus the rounded
within-minute seconds. -/
theorem hms_roundtrip_value {s : ℚ} (hs : 0 ≤ s) :
    hms_to_seconds (seconds_to_hms s) =
      some ((pyHours s : ℚ) * 3600 + (pyMinutes s : ℚ) * 60 + (msecN s : ℚ) / 1000) := by
  rw [hms_parse hs, digsVal_hmsA hs, digsVal_hmsB s]
  congr 1
  have hC : ((digsVal (hmsC s) : Int) : ℚ) = ((msecN s / 1000 : Nat) : ℚ) := by
    rw [digsVal_hmsC s]
    norm_cast
  have hD : (digsVal (hmsD s) : ℚ) = ((msecN s % 1000 : Nat) : ℚ) := by
    rw [digsVal_hmsD s]
  rw [hC, hD, length_hmsD s]
  have h2 : (1000 : ℚ) * ((msecN s / 1000 : Nat) : ℚ) + ((msecN s % 1000 : Nat) : ℚ) =
      ((msecN s : Nat) : ℚ) := by
    exact_mod_cast congrArg (fun n : Nat => (n : ℚ)) (Nat.div_add_mod (msecN s) 1000)
  have h3 : (10 : ℚ) ^ 3 = 1000 := by norm_num
  rw [h3]
  field_simp
  linarith [h2]

theorem pySplitChar_ne_nil (sep : Char) (cs : List Char) : pySplitChar sep cs ≠ [] := by
  induction cs with
  | nil => simp [pySplitChar]
  | cons c cs ih =>
    rw [pySplitChar]
    split
    · simp
    · cases h : pySplitChar sep cs with
      | nil => simp
      | cons g gs => simp

theorem hmsCore_none {tp : List Char} {ms : ℚ}
    (hlen : (pySplitChar ':' tp).length ≤ 3)
    (hex : ∃ p ∈ pySplitChar ':' tp, pyInt p = none) : hmsCore tp ms = none := by
  unfold hmsCore
  obtain ⟨p, hp, hpn⟩ := hex
  cases hsp : pySplitChar ':' tp with
  | nil => exact absurd hsp (pySplitChar_ne_nil ':' tp)
  | cons a rest =>
    rw [hsp] at hp hlen
    cases rest with
    | nil =>
      rcases List.mem_singleton.mp hp with rfl
      show Option.bind (pyInt ([p].headD [])) _ = none
      rw [List.headD_cons, hpn]
      rfl
    | cons b rest2 =>
      cases rest2 with
      | nil =>
        show Option.bind (pyInt a) _ = none
        rcases List.mem_cons.mp hp with rfl | hp2
        · rw [hpn]
          rfl
        · rcases List.mem_singleton.mp hp2 with rfl
          cases hA : pyInt a with
          | none => rfl
          | some v =>
            show Option.bind (pyInt p) _ = none
            rw [hpn]
            rfl
      | cons c rest3 =>
        cases rest3 with
        | nil =>
          show Option.bind (pyInt a) _ = none
          rcases List.mem_cons.mp hp with rfl | hp2
          · rw [hpn]
            rfl
          · rcases List.mem_cons.mp hp2 with rfl | hp3
            · cases hA : pyInt a with
              | none => rfl
              | some v =>
                show Option.bind (pyInt p) _ = none
                rw [hpn]
                rfl
            · rcases List.mem_singleton.mp hp3 with rfl
              cases hA : pyInt a with
              | none => rfl
              | some v =>
                show Option.bind (pyInt b) _ = none
                cases hB : pyInt b with
                | none => rfl
                | some w =>
                  show Option.bind (pyInt p) _ = none
                  rw [hpn]
                  rfl
        | cons d rest4 =>
          simp at hlen

/-- C5 (counterexample): the claim asserts that `toSeconds` fails whenever
the input has more than 3 colon-delimited components, and names
`"1:2:3:4"` as a failing input; the code instead takes the `else` branch
of the `len(parts)` cascade, reads only `parts[0]`, and returns `1.0`. -/
theorem hms_four_components_cex : hms_to_seconds "1:2:3:4" = some 1 := by
  have h : hms_to_seconds "1:2:3:4" = some ((((1 : ℕ) : ℤ) : ℚ) + 0) := rfl
  rw [h]
  norm_num

/-- C5 (amended): `hms_to_seconds` fails with a `ValueError`
(`MalformedTimecode`) whenever a consulted colon component is not
parseable as an integer — in particular on `""` and `"ab:cd"` — but a
component count above 3 is NOT rejected: every component after the first
is ignored, and `"1:2:3:4"` parses to 1.0. -/
theorem hms_to_seconds_malformed_amended :
    (∀ s : String, ('.') ∉ s.data → (pySplitChar ':' s.data).length ≤ 3 →
        (∃ p ∈ pySplitChar ':' s.data, pyInt p = none) → hms_to_seconds s = none)
    ∧ hms_to_seconds "" = none
    ∧ hms_to_seconds "ab:cd" = none
    ∧ hms_to_seconds "1:2:3:4" = some 1 := by
  refine ⟨?_, by decide, by decide, ?_⟩
  · intro s hdot hlen hex
    rw [hms_to_seconds, if_neg hdot]
    exact hmsCore_none hlen hex
  · have h : hms_to_seconds "1:2:3:4" = some ((((1 : ℕ) : ℤ) : ℚ) + 0) := rfl
    rw [h]
    norm_num

/-- Shape and content of the string rendered by `seconds_to_hms`: the
string is `HH:MM:SS.mmm` with a zero-padded hours field of width at least
2, a minutes field of width exactly 2, seconds and milliseconds fields of
widths 2 and 3, all fields decimal digits; hours and minutes carry the
floor-division values, and the combined `SS.mmm` digits carry the
within-minute seconds rounded (half to even) to three decimal places. -/
def RenderedShape (s : ℚ) : Prop :=
  (seconds_to_hms s).data = hmsA s ++ ':' :: hmsB s ++ ':' :: (hmsC s ++ '.' :: hmsD s)
  ∧ 2 ≤ (hmsA s).length ∧ (hmsB s).length = 2 ∧ (hmsC s).length = 2 ∧ (hmsD s).length = 3
  ∧ allDigits (hmsA s) = true ∧ allDigits (hmsB s) = true
  ∧ allDigits (hmsC s) = true ∧ allDigits (hmsD s) = true
  ∧ (digsVal (hmsA s) : Int) = pyHours s
  ∧ (digsVal (hmsB s) : Int) = pyMinutes s
  ∧ 1000 * digsVal (hmsC s) + digsVal (hmsD s) = msecN s
  ∧ (msecN s : Int) = rhe (pySecs s * 1000)

/-- C6 (amended): for every non-negative rational `s`, `seconds_to_hms`
returns a zero-padded `HH:MM:SS.mmm` string (hours at least two digits)
whose `SS.mmm` field holds the within-minute seconds of `s` rounded half
to even — not truncated — to 3 decimal digits. -/
theorem seconds_to_hms_shape_rounded (s : ℚ) (hs : 0 ≤ s) : RenderedShape s := by
  refine ⟨seconds_to_hms_data hs, length_hmsA s, length_hmsB s, length_hmsC s, length_hmsD s,
    allDigits_hmsA s, allDigits_hmsB s, allDigits_hmsC s, allDigits_hmsD s,
    digsVal_hmsA hs, digsVal_hmsB s, ?_, ?_⟩
  · rw [digsVal_hmsC s, digsVal_hmsD s]
    exact Nat.div_add_mod (msecN s) 1000
  · rw [msecN]
    exact rheN_cast (mul_nonneg (pySecs_nonneg s) (by norm_num))

/-- C6 (witness): the amended shape theorem applied at the concrete
timestamp 2 seconds. -/
theorem seconds_to_hms_shape_rounded_wit : RenderedShape 2 :=
  seconds_to_hms_shape_rounded 2 (by norm_num)

/-- C6 (counterexample): the claim says the milliseconds field is the
fractional seconds truncated to 3 digits. At `s = 7/16 = 0.4375` (a value
exactly representable in binary floating point) truncation would render
`00:00:00.437`, but `f-string` formatting rounds and the code renders
`00:00:00.438`. -/
theorem seconds_to_hms_rounds_cex :
    seconds_to_hms (7/16) = "00:00:00.438"
    ∧ ⌊(7/16 : ℚ) * 1000⌋ = 437
    ∧ "00:00:00.438" ≠ "00:00:00.437" := by
  refine ⟨?_, by norm_num [Int.floor_eq_iff], by decide⟩
  have h1 : pyHours (7/16 : ℚ) = 0 := by
    rw [pyHours]; norm_num [Int.floor_eq_zero_iff]
  have h2 : pyMinutes (7/16 : ℚ) = 0 := by
    rw [pyMinutes, h1]; norm_num [Int.floor_eq_zero_iff]
  have h3 : pySecs (7/16 : ℚ) = 7/16 := by
    rw [pySecs, h1, h2]; norm_num
  have h4 : rheN ((7/16 : ℚ) * 1000) = 438 := by
    have hf : ⌊(7/16 : ℚ) * 1000⌋ = 437 := by norm_num [Int.floor_eq_iff]
    rw [rheN, rhe, hf]; norm_num; decide
  rw [seconds_to_hms, h1, h2, fmt063, h3, h4]
  decide

/-- C7: round-tripping a non-negative seconds value through the display
string and back recovers it to within one millisecond: formatting rounds
the within-minute seconds to 3 decimals (error at most 1/2000) and
parsing is exact on the rendered digits. -/
theorem timecode_roundtrip_close (s : ℚ) (hs : 0 ≤ s) :
    ∃ r : ℚ, hms_to_seconds (seconds_to_hms s) = some r ∧ |r - s| ≤ 1 / 1000 := by
  refine ⟨_, hms_roundtrip_value hs, ?_⟩
  have hq : 0 ≤ pySecs s * 1000 := mul_nonneg (pySecs_nonneg s) (by norm_num)
  have e3 : ((msecN s : Nat) : ℚ) = (rhe (pySecs s * 1000) : ℚ) := by
    rw [msecN]
    exact rheN_castQ hq
  have e1 : pySecs s = s - (3600 * (pyHours s : ℚ) + 60 * (pyMinutes s : ℚ)) := rfl
  have habs := abs_rhe_sub (pySecs s * 1000)
  have e4 : (pyHours s : ℚ) * 3600 + (pyMinutes s : ℚ) * 60 + (msecN s : ℚ) / 1000 - s
      = ((rhe (pySecs s * 1000) : ℚ) - pySecs s * 1000) / 1000 := by
    rw [e3, e1]
    ring
  rw [e4, abs_div]
  have hd : |(1000 : ℚ)| = 1000 := by norm_num
  rw [hd]
  have hstep : |(rhe (pySecs s * 1000) : ℚ) - pySecs s * 1000| / 1000 ≤ (1 / 2) / 1000 := by
    gcongr
  calc |(rhe (pySecs s * 1000) : ℚ) - pySecs s * 1000| / 1000 ≤ (1 / 2) / 1000 := hstep
  _ ≤ 1 / 1000 := by norm_num

/-- C7 (witness): the round-trip bound instantiated at 2 seconds. -/
theorem timecode_roundtrip_close_wit :
    ∃ r : ℚ, hms_to_seconds (seconds_to_hms 2) = some r ∧ |r - 2| ≤ 1 / 1000 :=
  timecode_roundtrip_close 2 (by norm_num)

/-! ### The streamlit pipeline (src/main.py with the app/ adapters) -/

/-- Speaker turn as produced by the diarization adapter: the dict
`start`/`end`/`speaker` built in src/app/diarizer.py (the field `end` is
a reserved word in Lean, so it is named `stop` here). -/
structure Turn where
  start : ℚ
  stop : ℚ
  speaker : String
deriving DecidableEq

/-- One transcription record appended by `process_audio` in src/main.py:
the dict with keys speaker, text, start, end. -/
structure Transcription where
  speaker : String
  text : String
  start : ℚ
  stop : ℚ
deriving DecidableEq

/-- Kinds of Python exceptions raised by the adapters. -/
inductive PyErr where
  | calledProcessError
  | diarizationError
  | transcriptionError
  | fileNotFoundError
deriving DecidableEq

/-- Filesystem state restricted to the pipeline's temporary artifacts:
the list of paths currently present, the scope directory itself
included. -/
structure FS where
  paths : List String
deriving DecidableEq

def FS.add (fs : FS) (p : String) : FS := ⟨fs.paths ++ [p]⟩

def FS.remove (fs : FS) (p : String) : FS := ⟨fs.paths.erase p⟩

/-- External adapter behaviour for the streamlit pipeline: whether each
ffmpeg cut succeeds (arguments: input, start, optional end, output), what
the pyannote pipeline returns or raises, and what Whisper returns or
raises for each file. -/
structure StEnv where
  cutOk : String → String → Option String → String → Bool
  diarizeRes : String → Except PyErr (List Turn)
  transcribeRes : String → Except PyErr String

/-- Embedding of `trim_audio` (src/app/audio_processor.py): run ffmpeg
writing `output_file`; return the output path on success and `None` on
`CalledProcessError` (the error is displayed, not raised). -/
def trim_audio (env : StEnv) (fs : FS) (inputFile startTime : String)
    (endTime : Option String) (outputFile : String) : Option String × FS :=
  if env.cutOk inputFile startTime endTime outputFile then
    (some outputFile, fs.add outputFile)
  else (none, fs)

/-- Embedding of `run_diarization` (src/app/diarizer.py lines 26-46):
every error from the pyannote pipeline — including a missing pipeline —
is caught and an empty segment list is returned. -/
def run_diarization (env : StEnv) (audioFile : String) : List Turn :=
  match env.diarizeRes audioFile with
  | .ok segs => segs
  | .error _ => []

/-- The per-turn loop of `process_audio` (src/main.py lines 158-172): cut
each diarized segment, transcribe it (an exception raised here propagates
out of the whole unit with the current filesystem state), remove the
per-turn file, and accumulate the records; after the loop the windowed
artifact is removed. -/
def processSegments (env : StEnv) (tempDir trimmedFile : String) :
    List (Nat × Turn) → List Transcription → FS →
      Except PyErr (List Transcription) × FS
  | [], acc, fs => (.ok acc, fs.remove trimmedFile)
  | (i, seg) :: rest, acc, fs =>
    let segStart := seconds_to_hms seg.start
    let segEnd := seconds_to_hms seg.stop
    let segmentPath := tempDir ++ "/segment_" ++ (⟨natDigits i⟩ : String) ++ ".wav"
    match trim_audio env fs trimmedFile segStart (some segEnd) segmentPath with
    | (none, fs2) => processSegments env tempDir trimmedFile rest acc fs2
    | (some segmentFile, fs2) =>
      match env.transcribeRes segmentFile with
      | .error e => (.error e, fs2)
      | .ok text =>
        processSegments env tempDir trimmedFile rest
          (acc ++ [⟨seg.speaker, text, seg.start, seg.stop⟩]) (fs2.remove segmentFile)

/-- Embedding of `process_audio` (src/main.py lines 137-174). `tempDir`
stands for the fresh directory created by `tempfile.mkdtemp()`; its
creation is recorded in the filesystem state. A cut failure on the window
yields an empty success; a diarization error is swallowed inside
`run_diarization`; a per-turn transcription error propagates as a failure
of the whole unit. -/
def process_audio (env : StEnv) (fs0 : FS) (tempDir filePath startTime : String)
    (endTime : Option String) : Except PyErr (List Transcription) × FS :=
  let fs := fs0.add tempDir
  let trimmedPath := tempDir ++ "/trimmed_audio.wav"
  match trim_audio env fs filePath startTime endTime trimmedPath with
  | (none, fs1) => (.ok [], fs1)
  | (some trimmedFile, fs1) =>
    let segs := run_diarization env trimmedFile
    processSegments env tempDir trimmedFile segs.enum [] fs1

deriving instance DecidableEq for Except

/-! ### The standalone batch pipeline (src/app_standalone.py) -/

/-- A requested time window (the `TimeRange` dataclass). -/
structure TimeRange where
  start_time : String
  end_time : Option String
  id : Int
deriving DecidableEq

/-- A video source with its windows (the `VideoConfig` dataclass). -/
structure VideoConfig where
  url : String
  time_ranges : List TimeRange
deriving DecidableEq

/-- An entry of the accumulated transcriptions list: the dict with keys
file and transcript built in `process_videos`. -/
structure Entry where
  file : String
  transcript : String
deriving DecidableEq

/-- External adapter behaviour for the standalone pipeline
(src/app_standalone.py): `AudioProcessor.process_audio` (download and
window cut, keyed by url, start, end, id), `SpeakerDiarizer.diarize`,
`AudioProcessor.trim_audio` for per-turn cuts (keyed by input, start, end
and the compound file id), `Transcriber.transcribe_file`, and
`os.path.relpath` relative to the transcription output directory. -/
structure BEnv where
  processAudioDL : String → String → Option String → Int → Except PyErr String
  diarizeB : String → Except PyErr (List Turn)
  trimAudioB : String → String → String → String → Except PyErr String
  transcribeB : String → Except PyErr String
  relpath : String → String

/-- Rendering of a Python int for the compound id `f"{id}_{i}"`. -/
def intStr (i : Int) : String :=
  if i < 0 then ⟨'-' :: natDigits i.natAbs⟩ else ⟨natDigits i.toNat⟩

/-- The per-turn loop of `process_videos` (src/app_standalone.py lines
258-271): cut the turn with the compound id, transcribe it, tag the text
with the speaker label; any raised error escapes the loop. -/
def turnLoop (env : BEnv) (audioFile : String) (rangeId : Int) :
    List (Nat × Turn) → List String → Except PyErr (List String)
  | [], acc => .ok acc
  | (i, seg) :: rest, acc => do
    let segStart := seconds_to_hms seg.start
    let segEnd := seconds_to_hms seg.stop
    let segmentFile ← env.trimAudioB audioFile segStart segEnd
      (intStr rangeId ++ "_" ++ (⟨natDigits i⟩ : String))
    let transcriptSegment ← env.transcribeB segmentFile
    turnLoop env audioFile rangeId rest (acc ++ [seg.speaker ++ ": " ++ transcriptSegment])

/-- The body of the per-unit `try` block of `process_videos`
(src/app_standalone.py lines 243-290): acquire and window-cut, diarize,
run the per-turn loop, join the tagged texts with newlines, and build the
index entry; every raised error propagates to the `except` handler. -/
def processTryBody (env : BEnv) (url : String) (tr : TimeRange) : Except PyErr Entry := do
  let audioFile ← env.processAudioDL url tr.start_time tr.end_time tr.id
  let segs ← env.diarizeB audioFile
  let speakerTranscriptions ← turnLoop env audioFile tr.id segs.enum []
  pure ⟨env.relpath audioFile, String.intercalate "\n" speakerTranscriptions⟩

/-- Outcome of one unit: the `except Exception ... continue` handler
turns any raised error into a logged skip, so a unit either contributes
an entry or is silently absent. -/
def processUnit (env : BEnv) (url : String) (tr : TimeRange) : Option Entry :=
  (processTryBody env url tr).toOption

/-- Observable events of a batch run: one per processed unit, and one per
write of the output index. -/
inductive Ev where
  | unitOk
  | unitFailed
  | writeIndex (content : String)
deriving DecidableEq

/-- Embedding of `TranscriptionWriter.write_transcriptions`
(src/app_standalone.py lines 215-224): the content written to the index
file opened with mode w, one pipe-separated newline-terminated record per
entry. -/
def write_transcriptions (entries : List Entry) : String :=
  String.join (entries.map fun e => e.file ++ "|" ++ e.transcript ++ "\n")

/-- The inner loop over one video's time ranges, accumulating entries and
per-unit events. -/
def processRanges (env : BEnv) (url : String) :
    List TimeRange → List Entry × List Ev → List Entry × List Ev
  | [], st => st
  | tr :: rest, (entries, evs) =>
    match processTryBody env url tr with
    | .ok e => processRanges env url rest (entries ++ [e], evs ++ [.unitOk])
    | .error _ => processRanges env url rest (entries, evs ++ [.unitFailed])

/-- The outer loop over the configured videos. -/
def processVideosAux (env : BEnv) :
    List VideoConfig → List Entry × List Ev → List Entry × List Ev
  | [], st => st
  | v :: rest, st => processVideosAux env rest (processRanges env v.url v.time_ranges st)

/-- Embedding of `process_videos` (src/app_standalone.py lines 233-296):
process every (video, time range) unit with per-unit failure isolation,
then write the whole index once; the event trace records the per-unit
outcomes in submission order followed by the single write. -/
def process_videos (env : BEnv) (videos : List VideoConfig) : List Ev :=
  let st := processVideosAux env videos ([], [])
  st.2 ++ [.writeIndex (write_transcriptions st.1)]

/-- The flat list of work units of a batch, in submission order. -/
def unitsOf (videos : List VideoConfig) : List (String × TimeRange) :=
  videos.flatMap fun v => v.time_ranges.map fun tr => (v.url, tr)

/-! ### Adapter environments used in the claim statements -/

/-- A streamlit-pipeline environment in which every cut succeeds, the
diarizer returns `dia`, and the transcriber returns `tf path` for each
per-turn file. -/
def allOkStEnv (dia : List Turn) (tf : String → String) : StEnv :=
  ⟨fun _ _ _ _ => true, fun _ => .ok dia, fun p => .ok (tf p)⟩

theorem allOkStEnv_cutOk (dia : List Turn) (tf : String → String) :
    (allOkStEnv dia tf).cutOk = fun _ _ _ _ => true := rfl

theorem allOkStEnv_diarize (dia : List Turn) (tf : String → String) :
    (allOkStEnv dia tf).diarizeRes = fun _ => .ok dia := rfl

theorem allOkStEnv_transcribe (dia : List Turn) (tf : String → String) :
    (allOkStEnv dia tf).transcribeRes = fun p => .ok (tf p) := rfl

theorem processSegments_all_ok (dia : List Turn) (tf : String → String) (T tr : String) :
    ∀ (pairs : List (Nat × Turn)) (acc : List Transcription) (fs : FS),
      (processSegments (allOkStEnv dia tf) T tr pairs acc fs).1 =
        .ok (acc ++ pairs.map fun it =>
          ⟨it.2.speaker, tf (T ++ "/segment_" ++ (⟨natDigits it.1⟩ : String) ++ ".wav"),
            it.2.start, it.2.stop⟩) := by
  intro pairs
  induction pairs with
  | nil => intro acc fs; simp [processSegments]
  | cons p rest ih =>
    intro acc fs
    obtain ⟨i, seg⟩ := p
    simp only [processSegments, trim_audio, allOkStEnv_cutOk, allOkStEnv_transcribe, if_true]
    rw [ih]
    simp

/-- A streamlit-pipeline environment whose window cut succeeds and whose
diarization adapter raises. -/
def envDiarFail : StEnv :=
  ⟨fun _ _ _ _ => true, fun _ => .error .diarizationError, fun _ => .ok "x"⟩

/-- A standalone-pipeline environment whose acquisition succeeds and
whose diarization adapter raises. -/
def envBDiarFail : BEnv :=
  ⟨fun _ _ _ _ => .ok "a", fun _ => .error .diarizationError,
    fun _ _ _ _ => .ok "c", fun _ => .ok "t", fun p => p⟩

/-- C1 (counterexample): in the streamlit pipeline a diarization failure
does NOT make the unit fail: `run_diarization` catches every exception
and returns an empty list, so `process_audio` completes the unit as a
success with an empty segment sequence, exactly what the claim rules
out. -/
theorem diarization_failure_empty_success_cex :
    (process_audio envDiarFail ⟨[]⟩ "T" "in.wav" "00:00:00" none).1 = .ok []
    ∧ envDiarFail.diarizeRes "T/trimmed_audio.wav" = .error .diarizationError := by
  decide

/-- C1 (amended): in the standalone batch pipeline a diarization error is
fatal to the unit — the unit is reported failed and contributes nothing —
but in the streamlit pipeline the error is swallowed by
`run_diarization` and the unit completes as a success with an empty
segment sequence. -/
theorem diarization_failure_unit_outcomes :
    (∀ (env : BEnv) (url : String) (tr : TimeRange) (audioFile : String),
      env.processAudioDL url tr.start_time tr.end_time tr.id = .ok audioFile →
      env.diarizeB audioFile = .error .diarizationError →
      processUnit env url tr = none)
    ∧ (∀ (env : StEnv) (fs0 : FS) (T f st : String) (en : Option String),
      env.cutOk f st en (T ++ "/trimmed_audio.wav") = true →
      env.diarizeRes (T ++ "/trimmed_audio.wav") = .error .diarizationError →
      (process_audio env fs0 T f st en).1 = .ok []) := by
  constructor
  · intro env url tr audioFile h1 h2
    simp [processUnit, processTryBody, h1, h2, Except.toOption, Bind.bind, Except.bind]
  · intro env fs0 T f st en hcut hdia
    rw [process_audio]
    simp only [trim_audio, hcut, if_true]
    rw [run_diarization, hdia]
    rfl

/-- C1 (witness): both halves of the amended statement at concrete
adapters. -/
theorem diarization_failure_unit_outcomes_wit :
    processUnit envBDiarFail "u" ⟨"00:00:00", none, 1⟩ = none
    ∧ (process_audio envDiarFail ⟨[]⟩ "T" "f.wav" "00:00:00" none).1 = .ok [] :=
  ⟨diarization_failure_unit_outcomes.1 envBDiarFail "u" ⟨"00:00:00", none, 1⟩ "a" rfl rfl,
    diarization_failure_unit_outcomes.2 envDiarFail ⟨[]⟩ "T" "f.wav" "00:00:00" none rfl rfl⟩

/-- A streamlit-pipeline environment presenting the unsorted diarizer
output of the claim's own example. -/
def envUnsorted : StEnv :=
  allOkStEnv [⟨5, 8, "B"⟩, ⟨1, 3, "A"⟩, ⟨1, 3, "A"⟩] (fun _ => "t")

/-- C2 (counterexample): for the diarizer output
`[(5,8,"B"), (1,3,"A"), (1,3,"A")]` the claim requires the emitted order
`[(1,3,"A"), (1,3,"A"), (5,8,"B")]`; the code performs no sort and emits
the segments in adapter order, starting with the turn at 5. -/
theorem pipeline_no_sort_cex :
    (process_audio envUnsorted ⟨[]⟩ "T" "in.wav" "00:00:00" none).1 =
      .ok [⟨"B", "t", 5, 8⟩, ⟨"A", "t", 1, 3⟩, ⟨"A", "t", 1, 3⟩]
    ∧ ([⟨"B", "t", 5, 8⟩, ⟨"A", "t", 1, 3⟩, ⟨"A", "t", 1, 3⟩] : List Transcription).map
        (fun r => r.start) = [5, 1, 1]
    ∧ ([5, 1, 1] : List ℚ) ≠ [1, 1, 5] := by
  decide

/-- A standalone-pipeline environment in which every stage succeeds:
acquisition yields a path derived from the url and id, the diarizer
returns `dia`, per-turn cuts yield a path derived from the compound id,
and the transcriber returns `tf path`. -/
def successEnvB (rel : String → String) (dia : List Turn) (tf : String → String) : BEnv :=
  ⟨fun url _ _ id => .ok ("acq_" ++ url ++ "_" ++ intStr id),
    fun _ => .ok dia,
    fun _ _ _ fid => .ok ("cut_" ++ fid),
    fun p => .ok (tf p),
    rel⟩

theorem turnLoop_success (rel : String → String) (dia : List Turn) (tf : String → String)
    (a : String) (rid : Int) :
    ∀ (pairs : List (Nat × Turn)) (acc : List String),
      turnLoop (successEnvB rel dia tf) a rid pairs acc =
        .ok (acc ++ pairs.map fun it =>
          it.2.speaker ++ ": " ++
            tf ("cut_" ++ (intStr rid ++ "_" ++ (⟨natDigits it.1⟩ : String)))) := by
  intro pairs
  induction pairs with
  | nil => intro acc; simp [turnLoop]
  | cons p rest ih =>
    intro acc
    obtain ⟨i, seg⟩ := p
    show turnLoop (successEnvB rel dia tf) a rid rest
        (acc ++ [seg.speaker ++ ": " ++
          tf ("cut_" ++ (intStr rid ++ "_" ++ (⟨natDigits i⟩ : String)))]) =
      .ok (acc ++ ((i, seg) :: rest).map fun it =>
        it.2.speaker ++ ": " ++
          tf ("cut_" ++ (intStr rid ++ "_" ++ (⟨natDigits it.1⟩ : String))))
    rw [ih]
    simp

/-- C2 (amended): both pipelines emit one segment per diarized turn in
the adapter's original emission order — neither applies any sorting, so
the output is sorted by start only when the adapter's output already is.
The first half is the streamlit pipeline; the second is the per-turn
loop of the standalone pipeline, whose tagged texts follow the adapter
order as well. -/
theorem pipeline_preserves_adapter_order :
    (∀ (dia : List Turn) (tf : String → String) (fs0 : FS) (T f st : String)
      (en : Option String),
      ∃ l : List Transcription,
        (process_audio (allOkStEnv dia tf) fs0 T f st en).1 = .ok l
        ∧ l.map (fun r => (r.speaker, r.start, r.stop))
          = dia.map (fun t => (t.speaker, t.start, t.stop)))
    ∧ (∀ (rel : String → String) (dia : List Turn) (tf : String → String)
      (a : String) (rid : Int),
      turnLoop (successEnvB rel dia tf) a rid dia.enum [] =
        .ok (dia.enum.map fun it =>
          it.2.speaker ++ ": " ++
            tf ("cut_" ++ (intStr rid ++ "_" ++ (⟨natDigits it.1⟩ : String))))) := by
  refine ⟨?_, ?_⟩
  swap
  · intro rel dia tf a rid
    rw [turnLoop_success]
    rw [List.nil_append]
  intro dia tf fs0 T f st en
  refine ⟨dia.enum.map (fun it =>
      ⟨it.2.speaker, tf (T ++ "/segment_" ++ (⟨natDigits it.1⟩ : String) ++ ".wav"),
        it.2.start, it.2.stop⟩), ?_, ?_⟩
  · rw [process_audio]
    simp only [trim_audio, allOkStEnv_cutOk, if_true]
    rw [run_diarization, allOkStEnv_diarize]
    have h := processSegments_all_ok dia tf T (T ++ "/trimmed_audio.wav") dia.enum [] ((fs0.add T).add (T ++ "/trimmed_audio.wav"))
    simpa using h
  · rw [List.map_map]
    have h : ((fun r : Transcription => (r.speaker, r.start, r.stop)) ∘
        (fun it : Nat × Turn =>
          (⟨it.2.speaker, tf (T ++ "/segment_" ++ (⟨natDigits it.1⟩ : String) ++ ".wav"),
            it.2.start, it.2.stop⟩ : Transcription))) =
        (fun t : Turn => (t.speaker, t.start, t.stop)) ∘ Prod.snd := rfl
    rw [h, ← List.map_map, List.enum_map_snd]

/-- A streamlit-pipeline environment with three diarized turns in which
only the per-turn cut of the second turn fails. -/
def envCutFail (t0 t1 t2 : Turn) (tf : String → String) : StEnv :=
  ⟨fun _ _ _ out => !(out == "T/segment_1.wav"), fun _ => .ok [t0, t1, t2],
    fun p => .ok (tf p)⟩

/-- A streamlit-pipeline environment with three diarized turns in which
only the transcription of the second turn's file raises. -/
def envTransFail (t0 t1 t2 : Turn) (tf : String → String) : StEnv :=
  ⟨fun _ _ _ _ => true, fun _ => .ok [t0, t1, t2],
    fun p => if p == "T/segment_1.wav" then .error .transcriptionError else .ok (tf p)⟩

/-- C3 (counterexample): three turns, the transcriber fails only on the
second; the claim requires a partial success containing the first and
third segments, but the exception raised by `transcriber.transcribe` is
not caught inside the loop of `process_audio`, so the whole unit fails
and even the already-transcribed first segment is lost. -/
theorem perTurn_transcription_fatal_cex :
    (process_audio (envTransFail ⟨0, 4, "S1"⟩ ⟨4, 10, "S2"⟩ ⟨10, 12, "S3"⟩ (fun _ => "x"))
        ⟨[]⟩ "T" "f" "s" none).1 = .error .transcriptionError := by
  decide

/-- C3 (amended): in the streamlit pipeline only a per-turn CUT failure
is skipped — turn i is omitted and the loop continues with turn i+1 —
while a per-turn TRANSCRIPTION failure raises and is fatal to the whole
unit; in the standalone pipeline any error raised inside the per-turn
loop aborts the unit, which is then reported as a per-unit failure. -/
theorem perTurn_failure_policy :
    (∀ (t0 t1 t2 : Turn) (tf : String → String),
      (process_audio (envCutFail t0 t1 t2 tf) ⟨[]⟩ "T" "f" "s" none).1 =
        .ok [⟨t0.speaker, tf "T/segment_0.wav", t0.start, t0.stop⟩,
             ⟨t2.speaker, tf "T/segment_2.wav", t2.start, t2.stop⟩])
    ∧ (∀ (t0 t1 t2 : Turn) (tf : String → String),
      (process_audio (envTransFail t0 t1 t2 tf) ⟨[]⟩ "T" "f" "s" none).1 =
        .error .transcriptionError)
    ∧ (∀ (env : BEnv) (url : String) (tr : TimeRange) (e : PyErr),
      processTryBody env url tr = .error e → processUnit env url tr = none) := by
  refine ⟨fun t0 t1 t2 tf => rfl, fun t0 t1 t2 tf => rfl, ?_⟩
  intro env url tr e h
  rw [processUnit, h]
  rfl

theorem segPath_get2 (i : Nat) :
    ("T/segment_" ++ (⟨natDigits i⟩ : String) ++ ".wav").data.get? 2 = some 's' := rfl

theorem trimmedPath_get2 : ("T/trimmed_audio.wav" : String).data.get? 2 = some 't' := by
  decide

theorem T_ne_segPath (i : Nat) :
    ("T" : String) ≠ "T/segment_" ++ (⟨natDigits i⟩ : String) ++ ".wav" := by
  intro h
  have h2 : ("T" : String).data.get? 2 =
      ("T/segment_" ++ (⟨natDigits i⟩ : String) ++ ".wav").data.get? 2 :=
    congrArg (fun s : String => s.data.get? 2) h
  rw [segPath_get2 i] at h2
  exact absurd h2 (by decide)

theorem trimmed_ne_segPath (i : Nat) :
    ("T/trimmed_audio.wav" : String) ≠ "T/segment_" ++ (⟨natDigits i⟩ : String) ++ ".wav" := by
  intro h
  have h2 : ("T/trimmed_audio.wav" : String).data.get? 2 =
      ("T/segment_" ++ (⟨natDigits i⟩ : String) ++ ".wav").data.get? 2 :=
    congrArg (fun s : String => s.data.get? 2) h
  rw [segPath_get2 i, trimmedPath_get2] at h2
  exact absurd h2 (by decide)

theorem processSegments_cleanup (dia : List Turn) (tf : String → String) :
    ∀ (pairs : List (Nat × Turn)) (acc : List Transcription),
      (processSegments (allOkStEnv dia tf) "T" ("T" ++ "/trimmed_audio.wav") pairs acc
          (((⟨[]⟩ : FS).add "T").add ("T" ++ "/trimmed_audio.wav"))).2 = ⟨["T"]⟩ := by
  intro pairs
  induction pairs with
  | nil => intro acc; rfl
  | cons p rest ih =>
    intro acc
    obtain ⟨i, seg⟩ := p
    simp only [processSegments, trim_audio, allOkStEnv_cutOk, allOkStEnv_transcribe, if_true]
    have hstep : (((((⟨[]⟩ : FS).add "T").add ("T" ++ "/trimmed_audio.wav")).add
          ("T" ++ "/segment_" ++ (⟨natDigits i⟩ : String) ++ ".wav")).remove
          ("T" ++ "/segment_" ++ (⟨natDigits i⟩ : String) ++ ".wav")) =
        ((⟨[]⟩ : FS).add "T").add ("T" ++ "/trimmed_audio.wav") := by
      simp [FS.add, FS.remove, List.erase_cons, T_ne_segPath i, trimmed_ne_segPath i]
    rw [hstep]
    exact ih _

/-- C4 (counterexample): a fully successful unit with one diarized turn;
the claim requires that nothing remains under the scoped temporary root,
but the scope directory created by `tempfile.mkdtemp()` is never removed
by any code path, so the final filesystem state still holds it. -/
theorem temp_dir_remains_cex :
    (process_audio (allOkStEnv [⟨0, 4, "S1"⟩] (fun _ => "x")) ⟨[]⟩ "T" "in.wav"
        "00:00:00" none).2 = ⟨["T"]⟩
    ∧ (⟨["T"]⟩ : FS) ≠ (⟨[]⟩ : FS) := by
  decide

/-- C4 (amended): on a fully successful unit every intermediate file —
the windowed artifact and each per-turn artifact — is removed, but the
scope directory itself always remains; on a unit aborted by a per-turn
transcription failure the windowed artifact and the failing per-turn
artifact remain on disk as well. -/
theorem temp_scope_residue :
    (∀ (dia : List Turn) (tf : String → String) (f st : String) (en : Option String),
      (process_audio (allOkStEnv dia tf) ⟨[]⟩ "T" f st en).2 = ⟨["T"]⟩)
    ∧ (∀ (t0 t1 t2 : Turn) (tf : String → String),
      (process_audio (envTransFail t0 t1 t2 tf) ⟨[]⟩ "T" "f" "s" none).2 =
        ⟨["T", "T/trimmed_audio.wav", "T/segment_1.wav"]⟩) := by
  refine ⟨?_, fun t0 t1 t2 tf => rfl⟩
  intro dia tf f st en
  rw [process_audio]
  simp only [trim_audio, allOkStEnv_cutOk, if_true]
  rw [run_diarization, allOkStEnv_diarize]
  exact processSegments_cleanup dia tf dia.enum []

/-- The event recorded for one unit: ok when its try-body succeeded,
failed when it raised. -/
def unitEv (env : BEnv) (u : String × TimeRange) : Ev :=
  match processTryBody env u.1 u.2 with
  | .ok _ => .unitOk
  | .error _ => .unitFailed

/-- Whether an event is a write of the output index. -/
def Ev.isWrite : Ev → Bool
  | .writeIndex _ => true
  | _ => false

theorem processRanges_spec (env : BEnv) (url : String) :
    ∀ (trs : List TimeRange) (entries : List Entry) (evs : List Ev),
      processRanges env url trs (entries, evs) =
        (entries ++ trs.filterMap (fun tr => processUnit env url tr),
          evs ++ trs.map fun tr => unitEv env (url, tr)) := by
  intro trs
  induction trs with
  | nil => intro entries evs; simp [processRanges]
  | cons tr rest ih =>
    intro entries evs
    rw [processRanges]
    cases h : processTryBody env url tr with
    | ok e =>
      simp only []
      rw [ih (entries ++ [e]) (evs ++ [Ev.unitOk])]
      simp [List.filterMap_cons, List.map_cons, processUnit, unitEv, h, Except.toOption,
        List.append_assoc, List.singleton_append]
    | error err =>
      simp only []
      rw [ih entries (evs ++ [Ev.unitFailed])]
      simp [List.filterMap_cons, List.map_cons, processUnit, unitEv, h, Except.toOption,
        List.append_assoc, List.singleton_append]

theorem processVideosAux_spec (env : BEnv) :
    ∀ (videos : List VideoConfig) (entries : List Entry) (evs : List Ev),
      processVideosAux env videos (entries, evs) =
        (entries ++ (unitsOf videos).filterMap (fun u => processUnit env u.1 u.2),
          evs ++ (unitsOf videos).map (unitEv env)) := by
  intro videos
  induction videos with
  | nil => intro entries evs; simp [processVideosAux, unitsOf]
  | cons v rest ih =>
    intro entries evs
    rw [processVideosAux, processRanges_spec, ih]
    simp only [unitsOf, List.flatMap_cons, List.filterMap_append, List.map_append,
      List.filterMap_map, List.map_map, List.append_assoc]
    rfl

/-- A batch environment for the claim's 3-unit scenario: acquisition
fails exactly for the unit with id 2, one diarized turn per unit, every
transcription returns "t", and the index path of an artifact is the
artifact path itself. -/
def envBatch3 : BEnv :=
  ⟨fun _ _ _ id => if id = 2 then .error .calledProcessError else .ok ("audio" ++ intStr id),
    fun _ => .ok [⟨0, 1, "S"⟩],
    fun _ _ _ fid => .ok ("seg" ++ fid),
    fun _ => .ok "t",
    fun p => p⟩

/-- One source with three submitted windows, ids 1, 2, 3. -/
def batchOf3 : List VideoConfig :=
  [⟨"u", [⟨"00:00:00", some "00:01:00", 1⟩, ⟨"00:01:00", some "00:02:00", 2⟩,
    ⟨"00:02:00", some "00:03:00", 3⟩]⟩]

theorem filter_isWrite_map_unitEv (env : BEnv) :
    ∀ us : List (String × TimeRange), (us.map (unitEv env)).filter Ev.isWrite = [] := by
  intro us
  rw [List.filter_eq_nil_iff]
  intro ev hev
  obtain ⟨u, _, rfl⟩ := List.mem_map.mp hev
  rw [unitEv]
  cases processTryBody env u.1 u.2 <;> simp [Ev.isWrite]

/-- C8: a batch writes the output index exactly once, after every unit
has been processed: the event trace is the per-unit outcomes in
submission order followed by the single write, whose content is one
pipe-separated newline-terminated record per successful unit in
submission order; a unit whose acquisition fails is absent without
aborting its siblings. In the claim's scenario — 3 units with unit 2's
acquisition failing — the index holds exactly the 2 records of units 1
and 3, in submission order. -/
theorem batch_index_single_write :
    (∀ (env : BEnv) (videos : List VideoConfig),
      process_videos env videos =
        ((unitsOf videos).map (unitEv env)) ++
          [Ev.writeIndex (write_transcriptions
            ((unitsOf videos).filterMap fun u => processUnit env u.1 u.2))])
    ∧ (∀ (env : BEnv) (videos : List VideoConfig),
      (process_videos env videos).filter Ev.isWrite =
        [Ev.writeIndex (write_transcriptions
          ((unitsOf videos).filterMap fun u => processUnit env u.1 u.2))])
    ∧ process_videos envBatch3 batchOf3 =
        [Ev.unitOk, Ev.unitFailed, Ev.unitOk,
          Ev.writeIndex "audio1|S: t\naudio3|S: t\n"]
    ∧ ("audio1|S: t\naudio3|S: t\n".data.count '\n') = 2 := by
  have hmain : ∀ (env : BEnv) (videos : List VideoConfig),
      process_videos env videos =
        ((unitsOf videos).map (unitEv env)) ++
          [Ev.writeIndex (write_transcriptions
            ((unitsOf videos).filterMap fun u => processUnit env u.1 u.2))] := by
    intro env videos
    rw [process_videos, processVideosAux_spec]
    simp
  refine ⟨hmain, ?_, by decide, by decide⟩
  intro env videos
  rw [hmain env videos, List.filter_append, filter_isWrite_map_unitEv]
  rfl

/-- C9: for every successful unit, the assembled transcript is the
per-turn texts joined with newline, each prefixed by its speaker label
and the separator `": "`, and each index record has the form
`<relative-path>|<assembled-text>` terminated by a newline. In the
spec's end-to-end scenario — turns (0,4,S1), (4,10,S2) transcribed as
"hello" then "world" — the assembled text is `"S1: hello\nS2: world"`. -/
theorem assembled_text_format :
    (∀ (rel : String → String) (dia : List Turn) (tf : String → String)
        (url : String) (tr : TimeRange),
      processTryBody (successEnvB rel dia tf) url tr =
        .ok ⟨rel ("acq_" ++ url ++ "_" ++ intStr tr.id),
          String.intercalate "\n" (dia.enum.map fun it =>
            it.2.speaker ++ ": " ++
              tf ("cut_" ++ (intStr tr.id ++ "_" ++ (⟨natDigits it.1⟩ : String))))⟩)
    ∧ (∀ e : Entry, write_transcriptions [e] = e.file ++ "|" ++ e.transcript ++ "\n")
    ∧ processTryBody (successEnvB (fun p => p) [⟨0, 4, "S1"⟩, ⟨4, 10, "S2"⟩]
          (fun p => if p = "cut_7_0" then "hello" else "world")) "u"
          ⟨"00:00:00", some "00:00:10", 7⟩ =
        .ok ⟨"acq_u_7", "S1: hello\nS2: world"⟩ := by
  refine ⟨?_, ?_, by decide⟩
  · intro rel dia tf url tr
    show Except.map _ (turnLoop (successEnvB rel dia tf)
        ("acq_" ++ url ++ "_" ++ intStr tr.id) tr.id dia.enum []) = _
    rw [turnLoop_success]
    rfl
  · intro e
    show ("" : String) ++ (e.file ++ "|" ++ e.transcript ++ "\n") =
      e.file ++ "|" ++ e.transcript ++ "\n"
    cases e with
    | mk f t => cases f with
      | mk fd => rfl

/-! ### validate_time_format (src/main.py lines 51-54, src/app/ui.py lines 35-37) -/

/-- Character class `[0-5]` of the pattern. -/
def isLowDig (c : Char) : Bool :=
  decide (48 ≤ c.toNat) && decide (c.toNat ≤ 53)

/-- The optional hours group `[0-9]{1,2}`. -/
def hoursOk (cs : List Char) : Bool :=
  (cs.length == 1 || cs.length == 2) && allDigits cs

/-- The minutes group `[0-5]?[0-9]`. -/
def minutesOk (cs : List Char) : Bool :=
  match cs with
  | [d] => isDig d
  | [d1, d2] => isLowDig d1 && isDig d2
  | _ => false

/-- The seconds group `[0-5][0-9]`. -/
def secondsOk (cs : List Char) : Bool :=
  match cs with
  | [d1, d2] => isLowDig d1 && isDig d2
  | _ => false

/-- The optional fraction group `[0-9]{1,3}` after the literal dot. -/
def fracOk (cs : List Char) : Bool :=
  (cs.length == 1 || cs.length == 2 || cs.length == 3) && allDigits cs

/-- The trailing `[0-5][0-9](\.[0-9]{1,3})?` of the pattern, matched
against the text after the last colon. -/
def secFracOk (cs : List Char) : Bool :=
  match pySplitChar '.' cs with
  | [sec] => secondsOk sec
  | [sec, frac] => secondsOk sec && fracOk frac
  | _ => false

/-- The language of the regex body
`([0-9]{1,2}:)?[0-5]?[0-9]:[0-5][0-9](\.[0-9]{1,3})?`: the colon and the
dot are literal in the pattern and excluded from every character class,
so a match decomposes uniquely at the separators. -/
def vtfCore (cs : List Char) : Bool :=
  match pySplitChar ':' cs with
  | [m, rest] => minutesOk m && secFracOk rest
  | [h, m, rest] => hoursOk h && minutesOk m && secFracOk rest
  | _ => false

/-- Embedding of `validate_time_format`:
`re.match(r'^([0-9]{1,2}:)?[0-5]?[0-9]:[0-5][0-9](\.[0-9]{1,3})?$', s)`.
In Python (without re.MULTILINE) the anchor `$` matches at the end of the
string and also just before a newline that ends the string, so the
pattern accepts the body language optionally followed by one trailing
newline. -/
def validate_time_format (s : String) : Bool :=
  vtfCore s.data ||
    (match s.data.getLast? with
      | some c => (c == '\n') && vtfCore s.data.dropLast
      | none => false)

theorem vtfCore_no_colon {cs : List Char} (h : (':') ∉ cs) : vtfCore cs = false := by
  rw [vtfCore, pySplitChar_noSep h]

example : validate_time_format "00:30" = true := by decide
example : validate_time_format "1:05:09.5" = true := by decide
example : validate_time_format "45" = false := by decide
example : validate_time_format "00:30\n" = true := by decide

/-- C10 (counterexample): the claim says `validate_time_format` returns
true only for strings of shape `[HH:]MM:SS[.mmm]`; but Python's `$`
anchor also matches just before one trailing newline, so the string
`"00:30\n"` — which contains a newline and is not of that shape — is
accepted. -/
theorem validate_newline_cex :
    validate_time_format "00:30\n" = true
    ∧ '\n' ∈ "00:30\n".data
    ∧ vtfCore "00:30\n".data = false := by
  decide

/-- C10 (amended): `validate_time_format` returns false for every string
with no colon (so a bare-seconds value such as "45" is rejected even
though `hms_to_seconds` accepts it), and returns true exactly for the
strings of shape `[HH:]MM:SS[.mmm]` — final seconds exactly two digits in
[0,59], minutes in [0,59], hours 1-2 digits, milliseconds 1-3 digits —
possibly followed by one single trailing newline. -/
theorem validate_time_format_amended :
    (∀ s : String, (':') ∉ s.data → validate_time_format s = false)
    ∧ (∀ s : String, validate_time_format s = true →
        vtfCore s.data = true
        ∨ (s.data.getLast? = some '\n' ∧ vtfCore s.data.dropLast = true))
    ∧ (∀ s : String, vtfCore s.data = true → validate_time_format s = true)
    ∧ validate_time_format "45" = false
    ∧ hms_to_seconds "45" = some 45
    ∧ validate_time_format "00:30" = true
    ∧ validate_time_format "0:59.999" = true
    ∧ validate_time_format "1:05:09.5" = true
    ∧ validate_time_format "00:60" = false
    ∧ validate_time_format "60:00" = false
    ∧ validate_time_format "00:30\n" = true
    ∧ validate_time_format "00:30\n\n" = false := by
  refine ⟨?_, ?_, ?_, by decide, ?_, by decide, by decide, by decide, by decide, by decide,
    by decide, by decide⟩
  · intro s hcol
    rw [validate_time_format, vtfCore_no_colon hcol]
    cases hL : s.data.getLast? with
    | none => rfl
    | some c =>
      have hsub : (':') ∉ s.data.dropLast := fun hm =>
        hcol (List.mem_of_mem_dropLast hm)
      rw [vtfCore_no_colon hsub]
      simp
  · intro s h
    rw [validate_time_format] at h
    rcases (Bool.or_eq_true _ _).mp h with h1 | h2
    · exact Or.inl h1
    · cases hL : s.data.getLast? with
      | none => rw [hL] at h2; simp at h2
      | some c =>
        rw [hL] at h2
        have hand := (Bool.and_eq_true _ _).mp h2
        have hc : c = '\n' := by
          have := hand.1
          exact eq_of_beq this
        exact Or.inr ⟨by rw [hc], hand.2⟩
  · intro s h
    rw [validate_time_format, h]
    rfl
  · have h : hms_to_seconds "45" = some ((((45 : ℕ) : ℤ) : ℚ) + 0) := rfl
    rw [h]
    norm_num
